import Mathlib

set_option autoImplicit false
set_option maxRecDepth 8192

namespace VarApi

/-!
Shallow embedding of the PyJsCppCli variable-storage system.

The C++ layer (`src/AI/Bindings/VariableApi.cpp`, mirrored by
`src/ai/bindings/variable_api.cpp`) is embedded from the source: the
`VariableManager` class (its `config_path` resolution and its `GetVariable` /
`SetVariable` / `ListVariables` methods, all `const`) and the `extern "C"`
facade (`create_variable_manager`, `destroy_variable_manager`,
`get_variable`, `set_variable`, `list_variables`) with its static result
buffers.

The storage engine itself — the Python module `AI.Utils.variables` that the
C++ layer delegates every operation to through a subprocess — is not part of
the source bundle; it is modelled from the spec (§3–§7): a JSON-file-backed
string→string mapping with load/save, get/set/list/delete,
missing-file-is-empty and invalid-JSON-is-Corrupt semantics.

The subprocess transport (command assembly, single-quote escaping,
`popen`) is embedded at two levels. The delegation view (`GetVariable`,
`SetVariable`, `ListVariables`) gives the method results when the transport
delivers the request faithfully; it carries the claims whose conclusions do
not depend on payload fidelity (buffers, paths, constness, error
collapse). The transport-faithful view (`GetVariableT`, `SetVariableT`)
embeds the escaping loops, the exact snippet texts, the shell's reading of
the double-quoted word and Python's reading of the single-quoted literals;
it carries the round-trip and persistence claims, which fail on the real
transport for unprotected metacharacters.
-/

/-- Modelled from the spec: the Store's in-memory mapping (§3, "one JSON
object ... mapping variable name → value"), as an association list with
unique names. The Python module `AI.Utils.variables` that owns this mapping
is not in the source bundle. -/
abbrev Store := List (String × String)

/-- Modelled from the spec: `get(name)` returns the stored value or
"not present" (§4.1). -/
def Store.get : Store → String → Option String
  | [], _ => none
  | (k, v) :: rest, n => if k = n then some v else Store.get rest n

/-- Removes every binding of `n` (helper for `Store.set` and
`Store.delete`; names are unique, §3). -/
def Store.erase : Store → String → Store
  | [], _ => []
  | (k, v) :: rest, n =>
    if k = n then Store.erase rest n else (k, v) :: Store.erase rest n

/-- Modelled from the spec: `set(name, value)` inserts or overwrites the
value for `name`; last write wins (§3, §4.1). -/
def Store.set (m : Store) (n v : String) : Store :=
  (n, v) :: Store.erase m n

/-- Modelled from the spec: `delete(name)` removes a variable if present and
returns whether it existed (§4.1). -/
def Store.delete (m : Store) (n : String) : Store × Bool :=
  (Store.erase m n, (Store.get m n).isSome)

/-- Modelled from the spec: `list()` returns a snapshot copy of all stored
variables (§4.1). -/
def Store.listAll (m : Store) : Store := m

theorem Store.get_set_self (m : Store) (n v : String) :
    Store.get (Store.set m n v) n = some v := by
  simp [Store.set, Store.get]

theorem Store.get_erase (m : Store) (n n' : String) :
    Store.get (Store.erase m n) n' = if n = n' then none else Store.get m n' := by
  induction m with
  | nil => simp [Store.erase, Store.get]
  | cons p rest ih =>
    obtain ⟨k, v⟩ := p
    by_cases hk : k = n <;> by_cases hn : n = n' <;> by_cases hk' : k = n' <;>
      simp_all [Store.erase, Store.get]

theorem Store.get_set_ne (m : Store) (n v n' : String) (h : n ≠ n') :
    Store.get (Store.set m n v) n' = Store.get m n' := by
  simp [Store.set, Store.get, h, Store.get_erase]

/-!
## The on-disk JSON file format

Modelled from the spec (§6): a UTF-8 JSON object whose keys are the variable
names and whose values are JSON strings, in the exact shape the store
writes: no whitespace, string escapes for the quote and the backslash.
-/

/-- JSON string-escaping of a character sequence: quote and backslash are
preceded by a backslash, every other character is emitted as itself. -/
def escChars : List Char → List Char
  | [] => []
  | c :: rest =>
    if c = '"' ∨ c = '\\' then '\\' :: c :: escChars rest
    else c :: escChars rest

/-- One serialized JSON object member: `"key":"value"` with both strings
escaped. -/
def entryChars (k v : String) : List Char :=
  '"' :: (escChars k.data ++ '"' :: ':' :: '"' :: (escChars v.data ++ ['"']))

/-- The comma-separated members of the serialized object. -/
def bodyChars : Store → List Char
  | [] => []
  | [(k, v)] => entryChars k v
  | (k, v) :: rest => entryChars k v ++ ',' :: bodyChars rest

/-- Serialization of the full mapping: an opening brace, the members, a
closing brace. -/
def serializeChars (m : Store) : List Char :=
  '\x7b' :: (bodyChars m ++ ['\x7d'])

/-- Modelled from the spec: the JSON text the store persists (§4.1, §6). -/
def serialize (m : Store) : String :=
  ⟨serializeChars m⟩

/-- Parses a JSON string body (after an opening quote) up to its closing
quote; `acc` holds the characters read so far, reversed. Returns the decoded
string and the remaining input. -/
def parseStrAux : List Char → List Char → Option (String × List Char)
  | _, [] => none
  | acc, c :: rest =>
    if c = '"' then some (⟨acc.reverse⟩, rest)
    else if c = '\\' then
      match rest with
      | [] => none
      | d :: rest2 =>
        if d = '"' ∨ d = '\\' then parseStrAux (d :: acc) rest2 else none
    else parseStrAux (c :: acc) rest

/-- Parses one JSON object member `"k":"v"`; returns the key, the value and
the remaining input. -/
def parseEntry (cs : List Char) : Option (String × String × List Char) :=
  match cs with
  | '"' :: rest =>
    (parseStrAux [] rest).bind (fun kr =>
      match kr.2 with
      | ':' :: '"' :: rest2 =>
        (parseStrAux [] rest2).map (fun vr => (kr.1, vr.1, vr.2))
      | _ => none)
  | _ => none

/-- Parses the members of a JSON object (`"k":"v"` pairs separated by
commas, terminated by the closing brace at end of input); `fuel` bounds the
number of members. -/
def parseMembersF : Nat → List Char → Option Store
  | 0, _ => none
  | fuel + 1, cs =>
    (parseEntry cs).bind (fun kvr =>
      match kvr.2.2 with
      | ['\x7d'] => some [(kvr.1, kvr.2.1)]
      | ',' :: rest4 => (parseMembersF fuel rest4).map (fun m => (kvr.1, kvr.2.1) :: m)
      | _ => none)

/-- Parses a serialized JSON object: an opening brace, then either an
immediate closing brace (empty mapping) or a member list. -/
def parseObj (cs : List Char) : Option Store :=
  match cs with
  | '\x7b' :: rest =>
    if rest = ['\x7d'] then some [] else parseMembersF rest.length rest
  | _ => none

/-- Modelled from the spec: whether a file's text is a well-formed store
file, and its decoded mapping (§6; §7 `Corrupt`). -/
def parseVars (s : String) : Option Store :=
  parseObj s.data

theorem parseStrAux_escChars (l : List Char) : ∀ (acc rest : List Char),
    parseStrAux acc (escChars l ++ '"' :: rest) = some (⟨acc.reverse ++ l⟩, rest) := by
  induction l with
  | nil =>
    intro acc rest
    rw [escChars, List.nil_append, parseStrAux.eq_def]
    simp
  | cons c t ih =>
    intro acc rest
    by_cases hc : c = '"' ∨ c = '\\'
    · rw [escChars, if_pos hc, List.cons_append, List.cons_append, parseStrAux.eq_def]
      have hne : ('\\' : Char) ≠ '"' := by decide
      simp only [hne, ite_false, ite_true, if_neg hne, if_pos rfl, reduceIte]
      simp only [hc, ite_true, if_pos hc]
      rw [ih (c :: acc) rest]
      simp
    · push_neg at hc
      rw [escChars, if_neg (by simp [hc.1, hc.2]), List.cons_append, parseStrAux.eq_def]
      simp only [hc.1, hc.2, ite_false, if_neg hc.1, if_neg hc.2]
      rw [ih (c :: acc) rest]
      simp

theorem parseEntry_entryChars (k v : String) (rest : List Char) :
    parseEntry (entryChars k v ++ rest) = some (k, v, rest) := by
  rw [entryChars, List.cons_append, parseEntry]
  have h1 : (escChars k.data ++ '"' :: ':' :: '"' :: (escChars v.data ++ ['"'])) ++ rest
      = escChars k.data ++ '"' :: (':' :: '"' :: (escChars v.data ++ '"' :: rest)) := by
    simp [List.append_assoc]
  rw [h1, parseStrAux_escChars]
  simp only [Option.bind_some, Option.some_bind]
  rw [parseStrAux_escChars]
  simp

theorem entryChars_length (k v : String) : 5 ≤ (entryChars k v).length := by
  simp [entryChars]
  omega

theorem bodyChars_length (m : Store) : m.length ≤ (bodyChars m).length := by
  induction m with
  | nil => simp [bodyChars]
  | cons p t ih =>
    obtain ⟨k, v⟩ := p
    cases t with
    | nil =>
      have := entryChars_length k v
      simp [bodyChars]
      omega
    | cons q t2 =>
      have h1 := entryChars_length k v
      have h2 : bodyChars ((k, v) :: q :: t2) = entryChars k v ++ ',' :: bodyChars (q :: t2) := by
        rw [bodyChars]; simp
      simp [h2]
      simp at ih
      omega

theorem parseMembersF_bodyChars (m : Store) : ∀ (k v : String) (fuel : Nat),
    m.length < fuel →
    parseMembersF fuel (bodyChars ((k, v) :: m) ++ ['\x7d']) = some ((k, v) :: m) := by
  induction m with
  | nil =>
    intro k v fuel hf
    cases fuel with
    | zero => simp at hf
    | succ f =>
      rw [bodyChars, parseMembersF, parseEntry_entryChars]
      simp
  | cons p t ih =>
    obtain ⟨k2, v2⟩ := p
    intro k v fuel hf
    cases fuel with
    | zero => simp at hf
    | succ f =>
      have hb : bodyChars ((k, v) :: (k2, v2) :: t) =
          entryChars k v ++ ',' :: bodyChars ((k2, v2) :: t) := by
        rw [bodyChars]; simp
      have hsplit : bodyChars ((k, v) :: (k2, v2) :: t) ++ ['\x7d'] =
          entryChars k v ++ (',' :: (bodyChars ((k2, v2) :: t) ++ ['\x7d'])) := by
        rw [hb]; simp
      rw [hsplit, parseMembersF, parseEntry_entryChars]
      have hfuel : t.length < f := by simp at hf; omega
      simp only [Option.some_bind]
      rw [ih k2 v2 f hfuel]
      simp

theorem bodyChars_append_ne (k v : String) (t : Store) :
    bodyChars ((k, v) :: t) ++ ['\x7d'] ≠ ['\x7d'] := by
  cases t with
  | nil =>
    rw [bodyChars, entryChars]
    simp
  | cons q t2 =>
    have hb : bodyChars ((k, v) :: q :: t2) = entryChars k v ++ ',' :: bodyChars (q :: t2) := by
      rw [bodyChars]; simp
    rw [hb, entryChars]
    simp

/-- The serializer/parser round trip: every mapping the store writes is read
back exactly. -/
theorem parseObj_serializeChars (m : Store) :
    parseObj (serializeChars m) = some m := by
  cases m with
  | nil => rfl
  | cons p t =>
    obtain ⟨k, v⟩ := p
    rw [serializeChars, parseObj]
    rw [if_neg (bodyChars_append_ne k v t)]
    apply parseMembersF_bodyChars
    have h1 := bodyChars_length ((k, v) :: t)
    simp at h1 ⊢
    omega

theorem parseVars_serialize (m : Store) : parseVars (serialize m) = some m :=
  parseObj_serializeChars m

/-!
## Files and the storage backend

The local file system is a finite map from paths to file contents. The
backend operations are modelled from the spec (§4.1, §5, §7): each request
loads the mapping at the store's path, acts on it, and — for mutations —
persists the full serialized mapping before returning.
-/

/-- A snapshot of the local file system: path → file content. -/
abbrev FileSystem := List (String × String)

/-- Reads the content of the file at `p`, `none` when it does not exist. -/
def readFile (fs : FileSystem) (p : String) : Option String :=
  Store.get fs p

/-- Replaces (or creates) the file at `p` with content `c`. -/
def writeFile (fs : FileSystem) (p c : String) : FileSystem :=
  Store.set fs p c

/-- Modelled from the spec: the Store error taxonomy relevant here (§7). -/
inductive StorageError where
  | Corrupt
  | Unwritable
deriving DecidableEq, Repr

/-- Modelled from the spec: loading the backing file (§4.1, §7): a missing
file is an empty mapping; text that fails to parse as JSON is the fatal
`Corrupt` error, never silently replaced by empty data. -/
def load (content : Option String) : Except StorageError Store :=
  match content with
  | none => .ok []
  | some s =>
    match parseVars s with
    | some m => .ok m
    | none => .error .Corrupt

/-- Modelled from the spec: `open` resolves the path and loads the mapping;
it performs no write (§4.1, §7). The untouched file system is returned
alongside the result so that the no-write guarantee is expressible. -/
def openStore (fs : FileSystem) (path : String) :
    Except StorageError Store × FileSystem :=
  (load (readFile fs path), fs)

/-- Modelled from the spec: the backend's `get_variable` request: load the
mapping at `path` and look `n` up (§4.1). -/
def backendGet (fs : FileSystem) (path n : String) :
    Except StorageError (Option String) :=
  (load (readFile fs path)).map (fun m => Store.get m n)

/-- Modelled from the spec: the backend's `set_variable` request: load the
mapping, update it, persist the full serialized mapping (§4.1, §5); when the
load fails nothing is written. -/
def backendSet (fs : FileSystem) (path n v : String) :
    Except StorageError FileSystem :=
  (load (readFile fs path)).map
    (fun m => writeFile fs path (serialize (Store.set m n v)))

/-- Modelled from the spec: the backend's `delete` request: load, remove the
name if present, persist, and report whether it existed (§4.1). -/
def backendDelete (fs : FileSystem) (path n : String) :
    Except StorageError (Bool × FileSystem) :=
  (load (readFile fs path)).map
    (fun m => ((Store.get m n).isSome,
      writeFile fs path (serialize (Store.erase m n))))

/-- Modelled from the spec: the backend's `list_variables` request: load and
return the full mapping (§4.1). -/
def backendList (fs : FileSystem) (path : String) :
    Except StorageError Store :=
  (load (readFile fs path)).map Store.listAll

theorem load_serialize (m : Store) :
    load (some (serialize m)) = .ok m := by
  simp [load, parseVars_serialize]

theorem backendSet_get (fs fs2 : FileSystem) (path n v : String)
    (h : backendSet fs path n v = .ok fs2) :
    backendGet fs2 path n = .ok (some v) := by
  cases hl : load (readFile fs path) with
  | error e => simp [backendSet, hl, Except.map] at h
  | ok m =>
    simp [backendSet, hl, Except.map] at h
    subst h
    simp [backendGet, readFile, writeFile, Store.get_set_self,
      load_serialize, Except.map]

/-!
## The C++ `VariableManager` class (embedded from the source)

`src/AI/Bindings/VariableApi.cpp:44-237`. Its only field is `config_path`,
fixed by the constructor; `GetVariable`, `SetVariable` and `ListVariables`
are `const` methods that delegate every operation to the backend at
`config_path`. Each method is embedded as a function returning its result
together with the receiver and the file system after the call, so that any
mutation of either would be visible. `home` stands for `getenv("HOME")`.
-/

/-- Embeds the C++ `VariableManager` class: its only data member is
`config_path` (src/AI/Bindings/VariableApi.cpp:49). -/
structure VariableManager where
  config_path : String
deriving DecidableEq, Repr

/-- Embeds the constructor `VariableManager(const std::string& config_dir = "")`
(src/AI/Bindings/VariableApi.cpp:107-113): an empty `config_dir` resolves to
`HOME + "/.config/claude/variables.json"`, otherwise to
`config_dir + "/variables.json"`. -/
def VariableManager.make (home config_dir : String) : VariableManager :=
  if config_dir = "" then ⟨home ++ "/.config/claude/variables.json"⟩
  else ⟨config_dir ++ "/variables.json"⟩

/-- The delegation view of `VariableManager::GetVariable`
(src/AI/Bindings/VariableApi.cpp:132-154), a `const` method: the method
result when the transport delivers the request faithfully — the built
Python snippet prints the stored value, prints the empty string when the
variable is absent (`value if value is not None else` the empty literal),
and a failing invocation produces empty output. The transport itself is
embedded separately as `GetVariableT`. -/
def VariableManager.GetVariable (vm : VariableManager) (fs : FileSystem)
    (name : String) : String × VariableManager × FileSystem :=
  match backendGet fs vm.config_path name with
  | .ok (some v) => (v, vm, fs)
  | .ok none => ("", vm, fs)
  | .error _ => ("", vm, fs)

/-- The delegation view of `VariableManager::SetVariable`
(src/AI/Bindings/VariableApi.cpp:174-203), a `const` method: the method
result when the transport delivers the request faithfully — the built
Python snippet performs the backend `set` and prints `success`; the method
returns whether the output was `success`. The transport itself is embedded
separately as `SetVariableT`. -/
def VariableManager.SetVariable (vm : VariableManager) (fs : FileSystem)
    (name value : String) : Bool × VariableManager × FileSystem :=
  match backendSet fs vm.config_path name value with
  | .ok fs2 => (true, vm, fs2)
  | .error _ => (false, vm, fs)

/-- The delegation view of `VariableManager::ListVariables`
(src/AI/Bindings/VariableApi.cpp:220-236), a `const` method: the built
Python snippet prints the JSON dump of the full mapping; a failing
invocation produces empty output. -/
def VariableManager.ListVariables (vm : VariableManager) (fs : FileSystem) :
    String × VariableManager × FileSystem :=
  match backendList fs vm.config_path with
  | .ok m => (serialize m, vm, fs)
  | .error _ => ("", vm, fs)

/-!
## The `extern "C"` facade (embedded from the source)

`src/AI/Bindings/VariableApi.cpp:245-309`. `get_variable` and
`list_variables` each write their result into a function-local `static
std::string` and return a pointer into it; the process state therefore
carries one buffer per function, shared by every handle.
-/

/-- The process-wide state seen by the C facade: the file system plus the
two static result buffers (src/AI/Bindings/VariableApi.cpp:278,305). -/
structure CState where
  fs : FileSystem
  getBuf : String
  listBuf : String
deriving DecidableEq, Repr

/-- Embeds `create_variable_manager` (src/AI/Bindings/VariableApi.cpp:254-256):
`new VariableManager(config_dir ? config_dir : "")` — a NULL pointer is
replaced by the empty string before construction. -/
def create_variable_manager (config_dir : Option String) (home : String) :
    VariableManager :=
  VariableManager.make home (config_dir.getD "")

/-- Embeds `destroy_variable_manager` (src/AI/Bindings/VariableApi.cpp:263-265):
frees the handle; buffers and files are untouched. -/
def destroy_variable_manager (_vm : VariableManager) (st : CState) : CState :=
  st

/-- Embeds `get_variable` (src/AI/Bindings/VariableApi.cpp:277-281): stores
the method result in the function's static buffer and returns (the content
of) that buffer. -/
def get_variable (vm : VariableManager) (name : String) (st : CState) :
    String × CState :=
  let out := VariableManager.GetVariable vm st.fs name
  (out.1, { st with fs := out.2.2, getBuf := out.1 })

/-- Embeds `set_variable` (src/AI/Bindings/VariableApi.cpp:291-293):
`vm->SetVariable(name, value) ? 1 : 0`. -/
def set_variable (vm : VariableManager) (name value : String) (st : CState) :
    Nat × CState :=
  let out := VariableManager.SetVariable vm st.fs name value
  (if out.1 then 1 else 0, { st with fs := out.2.2 })

/-- Embeds `list_variables` (src/AI/Bindings/VariableApi.cpp:304-308): stores
the method result in the function's static buffer and returns (the content
of) that buffer. -/
def list_variables (vm : VariableManager) (st : CState) : String × CState :=
  let out := VariableManager.ListVariables vm st.fs
  (out.1, { st with fs := out.2.2, listBuf := out.1 })

/-!
## The subprocess transport (embedded from the source)

The methods above are the delegation view: the method result when the
transport delivers the request faithfully. The transport that is actually in
the source — `execute_python_command` (src/AI/Bindings/VariableApi.cpp:65-94)
runs `python3 -c "<snippet>"` through `popen`, and `GetVariable` /
`SetVariable` interpolate the path, name and value into the snippet after
escaping only single quotes (src lines 135-145, 175-193) — is embedded here:
the single-quote escaping loop, the exact snippet texts, the POSIX shell's
reading of the double-quoted `-c` word, and Python's reading of the
single-quoted string literals. The `cd <root> &&` preamble and the `popen`
buffering do not affect the delivered text and are not modelled; a `popen`
failure (src line 77) is a resource condition outside this model.
-/

/-- The apostrophe character (the Python string-literal delimiter). -/
def squote : Char := Char.ofNat 39

/-- The backtick character (shell command substitution). -/
def btick : Char := Char.ofNat 96

/-- Embeds the escaping loops of `GetVariable` / `SetVariable` /
`ListVariables` (src/AI/Bindings/VariableApi.cpp:135-145, 178-193):
each apostrophe becomes backslash-apostrophe; no other character is
escaped. -/
def escSQuotes : List Char → List Char
  | [] => []
  | c :: rest =>
    if c = squote then '\\' :: squote :: escSQuotes rest
    else c :: escSQuotes rest

/-- Models the POSIX shell's reading of the body of the double-quoted word
`python3 -c "<snippet>"` (src/AI/Bindings/VariableApi.cpp:74): inside double
quotes a backslash is removed before a line break (continuation), escapes
the dollar, backtick, double-quote and backslash characters, and is kept
before anything else; an unescaped double quote would close the word and an
unescaped dollar or backtick would trigger an expansion whose result depends
on the environment — those inputs leave the deterministic modelled fragment
(`none`). -/
def shellDQ : List Char → Option (List Char)
  | [] => some []
  | c :: rest =>
    if c = '\\' then
      match rest with
      | [] => none
      | d :: rest2 =>
        if d = '\n' then shellDQ rest2
        else if d = '$' ∨ d = btick ∨ d = '"' ∨ d = '\\' then
          (shellDQ rest2).map (fun r => d :: r)
        else
          (shellDQ rest2).map (fun r => '\\' :: d :: r)
    else if c = '"' ∨ c = '$' ∨ c = btick then none
    else (shellDQ rest).map (fun r => c :: r)

/-- Models Python's reading of a single-quoted string literal body (after
the opening quote): the closing quote ends it; a raw line break is a syntax
error (`none`); recognized single-character escapes are decoded; an escaped
line break is a continuation; numeric and named escapes (`\x`, octal, `\u`,
`\U`, `\N`) are left outside the modelled fragment (`none`); any other
escaped character keeps its backslash. Returns the decoded text and the
input after the closing quote. -/
def pySQLit : List Char → List Char → Option (String × List Char)
  | _, [] => none
  | acc, c :: rest =>
    if c = squote then some (⟨acc.reverse⟩, rest)
    else if c = '\n' ∨ c = '\r' then none
    else if c = '\\' then
      match rest with
      | [] => none
      | d :: rest2 =>
        if d = squote then pySQLit (squote :: acc) rest2
        else if d = '"' then pySQLit ('"' :: acc) rest2
        else if d = '\\' then pySQLit ('\\' :: acc) rest2
        else if d = 'n' then pySQLit ('\n' :: acc) rest2
        else if d = 'r' then pySQLit ('\r' :: acc) rest2
        else if d = 't' then pySQLit ('\t' :: acc) rest2
        else if d = 'b' then pySQLit (Char.ofNat 8 :: acc) rest2
        else if d = 'f' then pySQLit (Char.ofNat 12 :: acc) rest2
        else if d = 'v' then pySQLit (Char.ofNat 11 :: acc) rest2
        else if d = 'a' then pySQLit (Char.ofNat 7 :: acc) rest2
        else if d = '\n' then pySQLit acc rest2
        else if d = 'x' ∨ d = 'u' ∨ d = 'U' ∨ d = 'N' ∨ ('0' ≤ d ∧ d ≤ '7') then none
        else pySQLit (d :: '\\' :: acc) rest2
    else pySQLit (c :: acc) rest

/-- Consumes an exact expected character sequence from the input. -/
def dropExact : List Char → List Char → Option (List Char)
  | [], rest => some rest
  | _ :: _, [] => none
  | e :: es, c :: rest => if e = c then dropExact es rest else none

/-- The snippet text shared by `GetVariable` and `SetVariable` up to the
opening quote of the interpolated path
(src/AI/Bindings/VariableApi.cpp:147-149, 195-197). -/
def codeSeg1 : List Char :=
  ("from AI.Utils.variables import VariableManager; vm = VariableManager(").data
    ++ [squote]

/-- The `SetVariable` snippet text between the path and the name
(src/AI/Bindings/VariableApi.cpp:197-198). -/
def setSeg2 : List Char :=
  ("); vm.set_variable(").data ++ [squote]

/-- The `SetVariable` snippet text between the name and the value
(src/AI/Bindings/VariableApi.cpp:198). -/
def setSeg3 : List Char :=
  (", ").data ++ [squote]

/-- The `SetVariable` snippet text after the value
(src/AI/Bindings/VariableApi.cpp:198-199): close the call and print
`success`. -/
def setSeg4 : List Char :=
  ("); print(").data ++ [squote] ++ ("success").data ++ [squote]
    ++ (", end=").data ++ [squote, squote] ++ (")").data

/-- The `GetVariable` snippet text between the path and the name
(src/AI/Bindings/VariableApi.cpp:149-150). -/
def getSeg2 : List Char :=
  ("); value = vm.get_variable(").data ++ [squote]

/-- The `GetVariable` snippet text after the name
(src/AI/Bindings/VariableApi.cpp:150-151): print the value, or the empty
string for None. -/
def getSeg3 : List Char :=
  ("); print(value if value is not None else ").data ++ [squote, squote]
    ++ (", end=").data ++ [squote, squote] ++ (")").data

/-- The full Python snippet `SetVariable` builds, interpolating the
(already escaped) path, name and value
(src/AI/Bindings/VariableApi.cpp:195-199). -/
def setCodeChars (path name value : List Char) : List Char :=
  codeSeg1 ++ (path ++ (squote :: (setSeg2 ++ (name ++ (squote ::
    (setSeg3 ++ (value ++ (squote :: setSeg4))))))))

/-- The full Python snippet `GetVariable` builds, interpolating the
(already escaped) path and name (src/AI/Bindings/VariableApi.cpp:147-151). -/
def getCodeChars (path name : List Char) : List Char :=
  codeSeg1 ++ (path ++ (squote :: (getSeg2 ++ (name ++ (squote :: getSeg3)))))

/-- Python's reading of the delivered `SetVariable` snippet: it executes —
reaching the backend — exactly when it is the emitted statement shape with
three well-formed literals; the decoded path, name and value are returned.
Any other text is not that program (`none`). -/
def parseSetSnippet (cs : List Char) : Option (String × String × String) :=
  (dropExact codeSeg1 cs).bind fun r1 =>
  (pySQLit [] r1).bind fun pr =>
  (dropExact setSeg2 pr.2).bind fun r2 =>
  (pySQLit [] r2).bind fun nr =>
  (dropExact setSeg3 nr.2).bind fun r3 =>
  (pySQLit [] r3).bind fun vr =>
  (dropExact setSeg4 vr.2).bind fun r4 =>
  if r4 = [] then some (pr.1, nr.1, vr.1) else none

/-- Python's reading of the delivered `GetVariable` snippet, as for
`parseSetSnippet`. -/
def parseGetSnippet (cs : List Char) : Option (String × String) :=
  (dropExact codeSeg1 cs).bind fun r1 =>
  (pySQLit [] r1).bind fun pr =>
  (dropExact getSeg2 pr.2).bind fun r2 =>
  (pySQLit [] r2).bind fun nr =>
  (dropExact getSeg3 nr.2).bind fun r3 =>
  if r3 = [] then some (pr.1, nr.1) else none

/-- Embeds the trailing-newline strip of `execute_python_command`
(src/AI/Bindings/VariableApi.cpp:88-91). -/
def chopNL (s : String) : String :=
  match s.data.getLast? with
  | some c => if c = '\n' then ⟨s.data.dropLast⟩ else s
  | none => s

/-- Embeds `VariableManager::SetVariable` together with its transport: the
path, name and value are single-quote escaped and interpolated into the
snippet, which travels through the shell's double-quoted word and is read by
Python. `none`: the input leaves the deterministic modelled fragment (a
shell expansion, a broken word, or a snippet that is no longer the emitted
statement — outcomes that depend on the environment). Otherwise the backend
runs and the method returns whether the output was `success`, with the file
system after the call. -/
def VariableManager.SetVariableT (vm : VariableManager) (fs : FileSystem)
    (name value : String) : Option (Bool × FileSystem) :=
  match shellDQ (setCodeChars (escSQuotes vm.config_path.data)
      (escSQuotes name.data) (escSQuotes value.data)) with
  | none => none
  | some arg =>
    match parseSetSnippet arg with
    | none => none
    | some pnv =>
      match backendSet fs pnv.1 pnv.2.1 pnv.2.2 with
      | .ok fs2 => some (true, fs2)
      | .error _ => some (false, fs)

/-- Embeds `VariableManager::GetVariable` together with its transport, as
for `SetVariableT`; the captured output has one trailing line break
stripped (src lines 88-91); an absent variable and a failing backend both
print nothing, giving the empty string. -/
def VariableManager.GetVariableT (vm : VariableManager) (fs : FileSystem)
    (name : String) : Option (String × FileSystem) :=
  match shellDQ (getCodeChars (escSQuotes vm.config_path.data)
      (escSQuotes name.data)) with
  | none => none
  | some arg =>
    match parseGetSnippet arg with
    | none => none
    | some pn =>
      match backendGet fs pn.1 pn.2 with
      | .ok (some v) => some (chopNL v, fs)
      | .ok none => some ("", fs)
      | .error _ => some ("", fs)

/-- A character the shell's double-quoted word passes through unchanged:
not the closing quote, not expansion-starting, not a backslash. -/
def dqPlain (c : Char) : Prop :=
  c ≠ '"' ∧ c ≠ '$' ∧ c ≠ btick ∧ c ≠ '\\'

instance (c : Char) : Decidable (dqPlain c) := by
  unfold dqPlain
  infer_instance

/-- A character the whole transport delivers faithfully under the source's
single-quote-only escaping: additionally no backslash and no line break (a
Python literal cannot hold a raw one); apostrophes are allowed — the wrapper
escapes them. -/
def shellPySafe (c : Char) : Prop :=
  c ≠ '"' ∧ c ≠ '\\' ∧ c ≠ '$' ∧ c ≠ btick ∧ c ≠ '\n' ∧ c ≠ '\r'

instance (c : Char) : Decidable (shellPySafe c) := by
  unfold shellPySafe
  infer_instance

/-- One call through the C facade, with the handle it goes through. -/
inductive COp where
  | get (vm : VariableManager) (name : String)
  | set (vm : VariableManager) (name value : String)
  | listV (vm : VariableManager)
  | destroy (vm : VariableManager)

/-- Whether a facade call invokes `get_variable`. -/
def COp.isGet : COp → Bool
  | .get _ _ => true
  | _ => false

/-- Whether a facade call invokes `list_variables`. -/
def COp.isList : COp → Bool
  | .listV _ => true
  | _ => false

/-- The process-state effect of one facade call. -/
def stepC (st : CState) : COp → CState
  | .get vm n => (get_variable vm n st).2
  | .set vm n v => (set_variable vm n v st).2
  | .listV vm => (list_variables vm st).2
  | .destroy vm => destroy_variable_manager vm st

/-- Runs a sequence of facade calls. -/
def runC (st : CState) : List COp → CState
  | [] => st
  | op :: ops => runC (stepC st op) ops

/-- One method invocation on a single C++ `VariableManager` object. -/
inductive MethodOp where
  | get (name : String)
  | set (name value : String)
  | listV

/-- The effect of one method call on the receiver and the file system. -/
def stepVM (s : VariableManager × FileSystem) (op : MethodOp) :
    VariableManager × FileSystem :=
  match op with
  | .get n => (VariableManager.GetVariable s.1 s.2 n).2
  | .set n v => (VariableManager.SetVariable s.1 s.2 n v).2
  | .listV => (VariableManager.ListVariables s.1 s.2).2

/-- Runs a sequence of method calls on one object. -/
def runVM (s : VariableManager × FileSystem) : List MethodOp → VariableManager × FileSystem
  | [] => s
  | op :: ops => runVM (stepVM s op) ops

/-!
## Transport lemmas

Within the protected character set — no double quote, backslash, dollar,
backtick or line break; apostrophes allowed, the wrapper escapes them — the
shell word is read back verbatim, the Python literals decode to the original
strings, and the snippet is exactly the emitted statement shape.
-/

theorem dropExact_append (seg : List Char) : ∀ rest : List Char,
    dropExact seg (seg ++ rest) = some rest := by
  induction seg with
  | nil => intro rest; rfl
  | cons c t ih => intro rest; simp [dropExact, ih]

theorem dropExact_self (l : List Char) : dropExact l l = some [] := by
  have h := dropExact_append l []
  simpa using h

theorem shellDQ_plain_chunk (l : List Char) (hl : ∀ c ∈ l, dqPlain c) :
    ∀ (rest res : List Char), shellDQ rest = some res →
    shellDQ (l ++ rest) = some (l ++ res) := by
  induction l with
  | nil => intro rest res h; simpa using h
  | cons c t ih =>
    intro rest res h
    have hc := hl c (List.mem_cons_self c t)
    obtain ⟨h1, h2, h3, h4⟩ := hc
    have ht : ∀ c ∈ t, dqPlain c := fun d hd => hl d (List.mem_cons_of_mem c hd)
    rw [List.cons_append, shellDQ.eq_def]
    simp only [h4, ite_false, if_neg h4]
    rw [if_neg (by simp [h1, h2, h3])]
    rw [ih ht rest res h]
    rfl

theorem shellDQ_escSQ_chunk (l : List Char) (hl : ∀ c ∈ l, shellPySafe c) :
    ∀ (rest res : List Char), shellDQ rest = some res →
    shellDQ (escSQuotes l ++ rest) = some (escSQuotes l ++ res) := by
  induction l with
  | nil => intro rest res h; simpa [escSQuotes] using h
  | cons c t ih =>
    intro rest res h
    have hc := hl c (List.mem_cons_self c t)
    obtain ⟨h1, h2, h3, h4, h5, h6⟩ := hc
    have ht : ∀ c ∈ t, shellPySafe c := fun d hd => hl d (List.mem_cons_of_mem c hd)
    by_cases hsq : c = squote
    · rw [escSQuotes, if_pos hsq, List.cons_append, List.cons_append, shellDQ.eq_def]
      simp only [if_pos rfl, ite_true]
      have hs1 : squote ≠ '\n' := by decide
      have hs2 : ¬ (squote = '$' ∨ squote = btick ∨ squote = '"' ∨ squote = '\\') := by
        decide
      rw [if_neg hs1, if_neg hs2]
      rw [ih ht rest res h]
      simp [escSQuotes, hsq]
    · rw [escSQuotes, if_neg hsq, List.cons_append, shellDQ.eq_def]
      simp only [h2, ite_false, if_neg h2]
      rw [if_neg (by simp [h1, h3, h4])]
      rw [ih ht rest res h]
      simp [escSQuotes, hsq]

theorem shellDQ_sq_chunk (rest res : List Char) (h : shellDQ rest = some res) :
    shellDQ (squote :: rest) = some (squote :: res) := by
  have hs := shellDQ_plain_chunk [squote] (by decide) rest res h
  simpa using hs

theorem shellDQ_all_plain (l : List Char) (hl : ∀ c ∈ l, dqPlain c) :
    shellDQ l = some l := by
  have h := shellDQ_plain_chunk l hl [] [] rfl
  simpa using h

theorem shellDQ_setCode (p n v : List Char)
    (hp : ∀ c ∈ p, shellPySafe c) (hn : ∀ c ∈ n, shellPySafe c)
    (hv : ∀ c ∈ v, shellPySafe c) :
    shellDQ (setCodeChars (escSQuotes p) (escSQuotes n) (escSQuotes v))
      = some (setCodeChars (escSQuotes p) (escSQuotes n) (escSQuotes v)) := by
  unfold setCodeChars
  apply shellDQ_plain_chunk codeSeg1 (by decide)
  apply shellDQ_escSQ_chunk p hp
  apply shellDQ_sq_chunk
  apply shellDQ_plain_chunk setSeg2 (by decide)
  apply shellDQ_escSQ_chunk n hn
  apply shellDQ_sq_chunk
  apply shellDQ_plain_chunk setSeg3 (by decide)
  apply shellDQ_escSQ_chunk v hv
  apply shellDQ_sq_chunk
  exact shellDQ_all_plain setSeg4 (by decide)

theorem shellDQ_getCode (p n : List Char)
    (hp : ∀ c ∈ p, shellPySafe c) (hn : ∀ c ∈ n, shellPySafe c) :
    shellDQ (getCodeChars (escSQuotes p) (escSQuotes n))
      = some (getCodeChars (escSQuotes p) (escSQuotes n)) := by
  unfold getCodeChars
  apply shellDQ_plain_chunk codeSeg1 (by decide)
  apply shellDQ_escSQ_chunk p hp
  apply shellDQ_sq_chunk
  apply shellDQ_plain_chunk getSeg2 (by decide)
  apply shellDQ_escSQ_chunk n hn
  apply shellDQ_sq_chunk
  exact shellDQ_all_plain getSeg3 (by decide)

theorem pySQLit_escSQ (l : List Char) : ∀ (_hl : ∀ c ∈ l, shellPySafe c)
    (acc rest : List Char),
    pySQLit acc (escSQuotes l ++ squote :: rest) = some (⟨acc.reverse ++ l⟩, rest) := by
  induction l with
  | nil =>
    intro _hl acc rest
    rw [escSQuotes, List.nil_append, pySQLit.eq_def]
    simp
  | cons c t ih =>
    intro hl acc rest
    have hc := hl c (List.mem_cons_self c t)
    obtain ⟨h1, h2, h3, h4, h5, h6⟩ := hc
    have ht : ∀ c ∈ t, shellPySafe c := fun d hd => hl d (List.mem_cons_of_mem c hd)
    by_cases hsq : c = squote
    · rw [escSQuotes, if_pos hsq, List.cons_append, List.cons_append, pySQLit.eq_def]
      have hb1 : ('\\' : Char) ≠ squote := by decide
      have hb2 : ¬ (('\\' : Char) = '\n' ∨ ('\\' : Char) = '\r') := by decide
      simp only [hb1, hb2, ite_false, ite_true, if_neg hb1, if_neg hb2, if_pos rfl,
        reduceIte]
      rw [ih ht (squote :: acc) rest]
      simp [hsq]
    · rw [escSQuotes, if_neg hsq, List.cons_append, pySQLit.eq_def]
      simp only [hsq, h2, h5, h6, ite_false, if_neg hsq, if_neg h2, or_self,
        or_false, false_or, reduceIte]
      rw [ih ht (c :: acc) rest]
      simp

theorem parseSetSnippet_code (p n v : String)
    (hp : ∀ c ∈ p.data, shellPySafe c) (hn : ∀ c ∈ n.data, shellPySafe c)
    (hv : ∀ c ∈ v.data, shellPySafe c) :
    parseSetSnippet (setCodeChars (escSQuotes p.data) (escSQuotes n.data)
      (escSQuotes v.data)) = some (p, n, v) := by
  unfold parseSetSnippet setCodeChars
  rw [dropExact_append]
  simp only [Option.some_bind]
  rw [pySQLit_escSQ p.data hp]
  simp only [Option.some_bind, List.reverse_nil, List.nil_append]
  rw [dropExact_append]
  simp only [Option.some_bind]
  rw [pySQLit_escSQ n.data hn]
  simp only [Option.some_bind, List.reverse_nil, List.nil_append]
  rw [dropExact_append]
  simp only [Option.some_bind]
  rw [pySQLit_escSQ v.data hv]
  simp only [Option.some_bind, List.reverse_nil, List.nil_append]
  rw [dropExact_self]
  simp

theorem parseGetSnippet_code (p n : String)
    (hp : ∀ c ∈ p.data, shellPySafe c) (hn : ∀ c ∈ n.data, shellPySafe c) :
    parseGetSnippet (getCodeChars (escSQuotes p.data) (escSQuotes n.data))
      = some (p, n) := by
  unfold parseGetSnippet getCodeChars
  rw [dropExact_append]
  simp only [Option.some_bind]
  rw [pySQLit_escSQ p.data hp]
  simp only [Option.some_bind, List.reverse_nil, List.nil_append]
  rw [dropExact_append]
  simp only [Option.some_bind]
  rw [pySQLit_escSQ n.data hn]
  simp only [Option.some_bind, List.reverse_nil, List.nil_append]
  rw [dropExact_self]
  simp

theorem mem_of_getLast?_char : ∀ (l : List Char) (c : Char),
    l.getLast? = some c → c ∈ l := by
  intro l
  induction l with
  | nil => intro c h; simp [List.getLast?] at h
  | cons a t ih =>
    intro c h
    cases t with
    | nil =>
      simp [List.getLast?] at h
      simp [h]
    | cons b t2 =>
      rw [List.getLast?_cons_cons] at h
      exact List.mem_cons_of_mem a (ih c h)

theorem chopNL_safe (s : String) (hs : ∀ c ∈ s.data, shellPySafe c) :
    chopNL s = s := by
  unfold chopNL
  cases hl : s.data.getLast? with
  | none => rfl
  | some c =>
    have hmem := mem_of_getLast?_char s.data c hl
    have hc := (hs c hmem).2.2.2.2.1
    simp [hc]

/-- The transport-faithful round trip within the protected character set:
shared core of the amended round-trip and persistence claims. -/
theorem roundtripT_core (vm : VariableManager) (fs fs2 : FileSystem)
    (name value : String)
    (hp : ∀ c ∈ vm.config_path.data, shellPySafe c)
    (hn : ∀ c ∈ name.data, shellPySafe c)
    (hv : ∀ c ∈ value.data, shellPySafe c)
    (hset : VariableManager.SetVariableT vm fs name value = some (true, fs2)) :
    VariableManager.GetVariableT vm fs2 name = some (value, fs2) := by
  unfold VariableManager.SetVariableT at hset
  rw [shellDQ_setCode _ _ _ hp hn hv] at hset
  simp only [parseSetSnippet_code _ _ _ hp hn hv] at hset
  unfold VariableManager.GetVariableT
  rw [shellDQ_getCode _ _ hp hn]
  simp only [parseGetSnippet_code _ _ hp hn]
  cases hb : backendSet fs vm.config_path name value with
  | error e =>
    rw [hb] at hset
    simp at hset
  | ok fs2x =>
    rw [hb] at hset
    simp at hset
    subst hset
    rw [backendSet_get _ _ _ _ _ hb]
    simp [chopNL_safe value hv]

/-!
## Claim theorems
-/

/-- C1 counterexample: the transport mangles values that the single-quote
escaping does not protect. Setting "a\b" reports success, but Python decodes
the interpolated `\b` as the backspace character, so the store holds "a"
followed by backspace and the subsequent get returns that different string;
and a value holding a double quote breaks the shell's double-quoted word —
the call leaves the deterministic fragment entirely. -/
theorem set_get_transport_counterexample :
    VariableManager.SetVariableT ⟨"/p"⟩ [] "n" "a\\b"
      = some (true, [("/p", "\x7b\"n\":\"a\x08\"\x7d")]) ∧
    VariableManager.GetVariableT ⟨"/p"⟩ [("/p", "\x7b\"n\":\"a\x08\"\x7d")] "n"
      = some ("a\x08", [("/p", "\x7b\"n\":\"a\x08\"\x7d")]) ∧
    ("a\x08" : String) ≠ "a\\b" ∧
    VariableManager.SetVariableT ⟨"/p"⟩ [] "n" "va\"l" = none :=
  ⟨by rfl, by rfl, by decide, by rfl⟩

/-- C1 amended: the round trip holds, on the transport-faithful embedding,
for every (name, value) pair — and store path — whose characters the
source's single-quote-only escaping protects: no double quote, backslash,
dollar, backtick or line break; apostrophes, empty values, Unicode and
arbitrary length are all allowed. A `SetVariableT` that reports success
followed by `GetVariableT` of the same name returns exactly `value`. Values
with the unprotected metacharacters are mangled or lost by the transport
(see the counterexample). -/
theorem setVariableT_getVariableT_roundtrip (vm : VariableManager)
    (fs fs2 : FileSystem) (name value : String)
    (hp : ∀ c ∈ vm.config_path.data, shellPySafe c)
    (hn : ∀ c ∈ name.data, shellPySafe c)
    (hv : ∀ c ∈ value.data, shellPySafe c)
    (hset : VariableManager.SetVariableT vm fs name value = some (true, fs2)) :
    VariableManager.GetVariableT vm fs2 name = some (value, fs2) :=
  roundtripT_core vm fs fs2 name value hp hn hv hset

/-- C1 amended witness: a concrete safe round trip whose value holds an
apostrophe (exercising the escaping loop) and a non-ASCII character. -/
theorem setVariableT_getVariableT_roundtrip_witness :
    VariableManager.GetVariableT ⟨"/tmp/t/variables.json"⟩
      [("/tmp/t/variables.json",
        serialize [("name", "it" ++ (⟨[squote]⟩ : String) ++ "s ü")])] "name"
      = some ("it" ++ (⟨[squote]⟩ : String) ++ "s ü",
        [("/tmp/t/variables.json",
          serialize [("name", "it" ++ (⟨[squote]⟩ : String) ++ "s ü")])]) :=
  setVariableT_getVariableT_roundtrip ⟨"/tmp/t/variables.json"⟩ []
    [("/tmp/t/variables.json",
      serialize [("name", "it" ++ (⟨[squote]⟩ : String) ++ "s ü")])]
    "name" ("it" ++ (⟨[squote]⟩ : String) ++ "s ü")
    (by decide) (by decide) (by decide) (by rfl)

/-- C2: opening a store whose backing file exists but does not parse as JSON
reports `Corrupt`: it does not succeed with any mapping (in particular not
with an empty one) and leaves the file system — hence the existing file
content — unchanged. -/
theorem openStore_corrupt (fs : FileSystem) (path s : String)
    (hex : readFile fs path = some s) (hbad : parseVars s = none) :
    openStore fs path = (.error .Corrupt, fs) ∧
    ∀ m : Store, (openStore fs path).1 ≠ .ok m := by
  constructor
  · simp [openStore, load, hex, hbad]
  · intro m
    simp [openStore, load, hex, hbad]

/-- C2 witness: a backing file holding text that is not JSON. -/
theorem openStore_corrupt_witness :
    openStore [("/p", "garbage")] "/p" = (.error .Corrupt, [("/p", "garbage")]) ∧
    ∀ m : Store, (openStore [("/p", "garbage")] "/p").1 ≠ .ok m :=
  openStore_corrupt [("/p", "garbage")] "/p" "garbage" (by rfl) (by rfl)

/-- C3 counterexample: persistence of the exact value fails on the real
transport for values outside the protected character set: one instance at
(home, dir) sets "a\b" — reported successful — and a fresh instance
constructed from the same (home, dir) gets back "a" followed by the
backspace character, not "a\b". -/
theorem persistence_transport_counterexample :
    VariableManager.SetVariableT (VariableManager.make "/home/u" "/tmp/t1") []
      "persistent" "a\\b"
      = some (true, [("/tmp/t1/variables.json", "\x7b\"persistent\":\"a\x08\"\x7d")]) ∧
    VariableManager.GetVariableT (VariableManager.make "/home/u" "/tmp/t1")
      [("/tmp/t1/variables.json", "\x7b\"persistent\":\"a\x08\"\x7d")] "persistent"
      = some ("a\x08", [("/tmp/t1/variables.json", "\x7b\"persistent\":\"a\x08\"\x7d")]) ∧
    ("a\x08" : String) ≠ "a\\b" :=
  ⟨by rfl, by rfl, by decide⟩

/-- C3 amended: persistence across instances on the transport-faithful
embedding, within the protected character set (no double quote, backslash,
dollar, backtick or line break in the name, the value or the resolved
path): a handle constructed from (home, dir) whose `SetVariableT` reports
success, then a second handle constructed afterwards from the same
(home, dir) — hence resolving the same path — whose `GetVariableT` returns
exactly `value`; the spec's persistent/persistent_value instance is the
witness. -/
theorem persistenceT_across_instances (home dir name value : String)
    (fs fs2 : FileSystem)
    (hp : ∀ c ∈ (VariableManager.make home dir).config_path.data, shellPySafe c)
    (hn : ∀ c ∈ name.data, shellPySafe c)
    (hv : ∀ c ∈ value.data, shellPySafe c)
    (hset : VariableManager.SetVariableT (VariableManager.make home dir) fs name value
      = some (true, fs2)) :
    VariableManager.GetVariableT (VariableManager.make home dir) fs2 name
      = some (value, fs2) :=
  roundtripT_core (VariableManager.make home dir) fs fs2 name value hp hn hv hset

/-- C3 amended witness: the spec's own scenario —
`set("persistent", "persistent_value")` in one instance, `get("persistent")`
in a fresh instance at the same path. -/
theorem persistenceT_across_instances_witness :
    VariableManager.GetVariableT (VariableManager.make "/home/u" "/tmp/t1")
      [("/tmp/t1/variables.json", serialize [("persistent", "persistent_value")])]
      "persistent"
      = some ("persistent_value",
        [("/tmp/t1/variables.json", serialize [("persistent", "persistent_value")])]) :=
  persistenceT_across_instances "/home/u" "/tmp/t1" "persistent" "persistent_value"
    [] [("/tmp/t1/variables.json", serialize [("persistent", "persistent_value")])]
    (by decide) (by decide) (by decide) (by rfl)

/-- C6: with no directory supplied the store resolves to
HOME ++ "/.config/claude/variables.json"; a supplied directory is used
instead (with the fixed file name appended); and opening when the backing
file does not exist succeeds with the empty mapping. -/
theorem default_path_and_missing_file (home dir path : String) (fs : FileSystem) :
    (VariableManager.make home "").config_path
      = home ++ "/.config/claude/variables.json" ∧
    (dir ≠ "" → (VariableManager.make home dir).config_path
      = dir ++ "/variables.json") ∧
    (readFile fs path = none → openStore fs path = (.ok [], fs)) := by
  refine ⟨by simp [VariableManager.make], fun h => by simp [VariableManager.make, h],
    fun h => by simp [openStore, load, h]⟩

/-- C6 witness: the default resolution under HOME `/home/u`, an explicit
directory `/tmp/t1`, and an open on an empty file system. -/
theorem default_path_and_missing_file_witness :
    (VariableManager.make "/home/u" "").config_path
      = "/home/u" ++ "/.config/claude/variables.json" ∧
    (VariableManager.make "/home/u" "/tmp/t1").config_path
      = "/tmp/t1" ++ "/variables.json" ∧
    openStore [] "/tmp/t1/variables.json" = (.ok [], []) :=
  ⟨(default_path_and_missing_file "/home/u" "/tmp/t1" "/tmp/t1/variables.json" []).1,
   (default_path_and_missing_file "/home/u" "/tmp/t1" "/tmp/t1/variables.json" []).2.1
     (by decide),
   (default_path_and_missing_file "/home/u" "/tmp/t1" "/tmp/t1/variables.json" []).2.2
     (by rfl)⟩

/-- C9: `create_variable_manager` with a NULL `config_dir` returns a handle
equal — hence behaviourally identical — to one constructed with the default
empty path, storing at the default config location. -/
theorem create_null_default (home : String) :
    create_variable_manager none home = create_variable_manager (some "") home ∧
    create_variable_manager none home = VariableManager.make home "" ∧
    (create_variable_manager none home).config_path
      = home ++ "/.config/claude/variables.json" := by
  refine ⟨rfl, rfl, ?_⟩
  simp [create_variable_manager, VariableManager.make]

theorem stepVM_fst (s : VariableManager × FileSystem) (op : MethodOp) :
    (stepVM s op).1 = s.1 := by
  cases op with
  | get n =>
    cases h : backendGet s.2 s.1.config_path n with
    | error e => simp [stepVM, VariableManager.GetVariable, h]
    | ok r => cases r <;> simp [stepVM, VariableManager.GetVariable, h]
  | set n v =>
    cases h : backendSet s.2 s.1.config_path n v with
    | error e => simp [stepVM, VariableManager.SetVariable, h]
    | ok fs2 => simp [stepVM, VariableManager.SetVariable, h]
  | listV =>
    cases h : backendList s.2 s.1.config_path with
    | error e => simp [stepVM, VariableManager.ListVariables, h]
    | ok m => simp [stepVM, VariableManager.ListVariables, h]

theorem runVM_fst (ops : List MethodOp) : ∀ s : VariableManager × FileSystem,
    (runVM s ops).1 = s.1 := by
  induction ops with
  | nil => intro s; rfl
  | cons op ops ih =>
    intro s
    rw [runVM, ih (stepVM s op), stepVM_fst]

/-- C5 counterexample: two distinct handles open at different paths holding
different values of the same name; the `get_variable` call through the
second handle overwrites the static buffer that the call through the first
handle returned, so the buffer does not remain unchanged until the next call
through that same first handle. -/
theorem static_buffer_not_per_handle :
    ((⟨"/p1"⟩ : VariableManager) ≠ ⟨"/p2"⟩) ∧
    ((get_variable ⟨"/p2"⟩ "n"
        (get_variable ⟨"/p1"⟩ "n"
          ⟨[("/p1", "\x7b\"n\":\"v1\"\x7d"), ("/p2", "\x7b\"n\":\"v2\"\x7d")],
            "", ""⟩).2).2.getBuf
      ≠ (get_variable ⟨"/p1"⟩ "n"
          ⟨[("/p1", "\x7b\"n\":\"v1\"\x7d"), ("/p2", "\x7b\"n\":\"v2\"\x7d")],
            "", ""⟩).1) := by
  decide

theorem stepC_getBuf (st : CState) (op : COp) (h : COp.isGet op = false) :
    (stepC st op).getBuf = st.getBuf := by
  cases op with
  | get vm n => simp [COp.isGet] at h
  | set vm n v => simp [stepC, set_variable]
  | listV vm => simp [stepC, list_variables]
  | destroy vm => rfl

theorem stepC_listBuf (st : CState) (op : COp) (h : COp.isList op = false) :
    (stepC st op).listBuf = st.listBuf := by
  cases op with
  | get vm n => simp [stepC, get_variable]
  | set vm n v => simp [stepC, set_variable]
  | listV vm => simp [COp.isList] at h
  | destroy vm => rfl

theorem runC_getBuf (ops : List COp) : ∀ st : CState,
    (∀ op ∈ ops, COp.isGet op = false) → (runC st ops).getBuf = st.getBuf := by
  induction ops with
  | nil => intro st _; rfl
  | cons op ops ih =>
    intro st h
    rw [runC, ih (stepC st op) (fun o ho => h o (List.mem_cons_of_mem op ho)),
      stepC_getBuf st op (h op (List.mem_cons_self op ops))]

theorem runC_listBuf (ops : List COp) : ∀ st : CState,
    (∀ op ∈ ops, COp.isList op = false) → (runC st ops).listBuf = st.listBuf := by
  induction ops with
  | nil => intro st _; rfl
  | cons op ops ih =>
    intro st h
    rw [runC, ih (stepC st op) (fun o ho => h o (List.mem_cons_of_mem op ho)),
      stepC_listBuf st op (h op (List.mem_cons_self op ops))]

/-- C5 amended: the static result buffers are per facade function and
process-wide, not per handle: the buffer `get_variable` returned stays
unchanged under any sequence of facade calls — through any handles — that
contains no further `get_variable` call, and likewise for `list_variables`;
and a call of either function through any handle overwrites its own buffer
with that call's result. -/
theorem static_buffer_per_function (st : CState) (ops : List COp) :
    ((∀ op ∈ ops, COp.isGet op = false) → (runC st ops).getBuf = st.getBuf) ∧
    ((∀ op ∈ ops, COp.isList op = false) → (runC st ops).listBuf = st.listBuf) ∧
    (∀ vm n, (stepC st (.get vm n)).getBuf = (get_variable vm n st).1) ∧
    (∀ vm, (stepC st (.listV vm)).listBuf = (list_variables vm st).1) :=
  ⟨runC_getBuf ops st, runC_listBuf ops st, fun _ _ => rfl, fun _ => rfl⟩

/-- C5 amended witness: a set and a destroy through one handle and a list
through another leave the get buffer unchanged, and symmetrically. -/
theorem static_buffer_per_function_witness :
    (runC ⟨[], "gb", "lb"⟩
      [.set ⟨"/p"⟩ "a" "1", .destroy ⟨"/p"⟩, .listV ⟨"/q"⟩]).getBuf = "gb" ∧
    (runC ⟨[], "gb", "lb"⟩
      [.set ⟨"/p"⟩ "a" "1", .destroy ⟨"/p"⟩, .get ⟨"/q"⟩ "a"]).listBuf = "lb" ∧
    (stepC ⟨[], "gb", "lb"⟩ (.get ⟨"/p"⟩ "a")).getBuf
      = (get_variable ⟨"/p"⟩ "a" ⟨[], "gb", "lb"⟩).1 :=
  ⟨(static_buffer_per_function ⟨[], "gb", "lb"⟩
      [.set ⟨"/p"⟩ "a" "1", .destroy ⟨"/p"⟩, .listV ⟨"/q"⟩]).1 (by decide),
   (static_buffer_per_function ⟨[], "gb", "lb"⟩
      [.set ⟨"/p"⟩ "a" "1", .destroy ⟨"/p"⟩, .get ⟨"/q"⟩ "a"]).2.1 (by decide),
   (static_buffer_per_function ⟨[], "gb", "lb"⟩ []).2.2.1 ⟨"/p"⟩ "a"⟩

/-- C7: a successful backend delete returns true exactly when the name was
present before the call, persists the updated mapping (the backing file now
holds the serialized mapping with the name erased), and a subsequent get
reports not-found. -/
theorem delete_removes_and_reports (fs fs2 : FileSystem) (path n : String) (b : Bool)
    (h : backendDelete fs path n = .ok (b, fs2)) :
    (b = true ↔ ∃ v, backendGet fs path n = .ok (some v)) ∧
    backendGet fs2 path n = .ok none ∧
    ∃ m : Store, load (readFile fs path) = .ok m ∧
      readFile fs2 path = some (serialize (Store.erase m n)) := by
  cases hl : load (readFile fs path) with
  | error e => simp [backendDelete, hl, Except.map] at h
  | ok m =>
    simp [backendDelete, hl, Except.map] at h
    obtain ⟨hb, hfs⟩ := h
    refine ⟨?_, ?_, m, rfl, ?_⟩
    · rw [← hb]
      simp [backendGet, hl, Except.map, Option.isSome_iff_exists]
    · rw [← hfs]
      simp [backendGet, readFile, writeFile, Store.get_set_self,
        load_serialize, Except.map, Store.get_erase]
    · rw [← hfs]
      simp [readFile, writeFile, Store.get_set_self]

/-- C7 witness: deleting the sole variable of a one-entry store. -/
theorem delete_removes_and_reports_witness :
    (True ↔ ∃ v, backendGet [("/p", "\x7b\"a\":\"1\"\x7d")] "/p" "a" = .ok (some v)) ∧
    backendGet [("/p", "\x7b\x7d")] "/p" "a" = .ok none ∧
    ∃ m : Store, load (readFile [("/p", "\x7b\"a\":\"1\"\x7d")] "/p") = .ok m ∧
      readFile [("/p", "\x7b\x7d")] "/p" = some (serialize (Store.erase m "a")) := by
  have h := delete_removes_and_reports [("/p", "\x7b\"a\":\"1\"\x7d")]
    [("/p", "\x7b\x7d")] "/p" "a" true (by rfl)
  exact ⟨by simpa using h.1, h.2.1, h.2.2⟩

/-- Applies a sequence of backend set requests one after the other, stopping
at the first failure: the serialized execution that the spec's per-path lock
enforces for concurrent in-process writers (§5). -/
def runSets (fs : FileSystem) (path : String) :
    List (String × String) → Except StorageError FileSystem
  | [] => .ok fs
  | (n, v) :: rest =>
    match backendSet fs path n v with
    | .ok fs2 => runSets fs2 path rest
    | .error e => .error e

theorem runSets_load (path : String) (l : List (String × String)) :
    ∀ (fs fs2 : FileSystem) (m : Store),
      load (readFile fs path) = .ok m → runSets fs path l = .ok fs2 →
      load (readFile fs2 path)
        = .ok (l.foldl (fun acc p => Store.set acc p.1 p.2) m) := by
  induction l with
  | nil =>
    intro fs fs2 m hm hr
    simp [runSets] at hr
    subst hr
    simpa using hm
  | cons p rest ih =>
    obtain ⟨n, v⟩ := p
    intro fs fs2 m hm hr
    rw [runSets] at hr
    cases hb : backendSet fs path n v with
    | error e => rw [hb] at hr; simp at hr
    | ok fsm =>
      rw [hb] at hr
      have hfsm : fsm = writeFile fs path (serialize (Store.set m n v)) := by
        simp [backendSet, hm, Except.map] at hb
        exact hb.symm
      have hload2 : load (readFile fsm path) = .ok (Store.set m n v) := by
        subst hfsm
        simp [readFile, writeFile, Store.get_set_self, load_serialize]
      simpa using ih fsm fs2 (Store.set m n v) hload2 hr

theorem get_foldl_not_mem (l : List (String × String)) : ∀ (m : Store) (n : String),
    n ∉ l.map Prod.fst →
    Store.get (l.foldl (fun acc p => Store.set acc p.1 p.2) m) n = Store.get m n := by
  induction l with
  | nil => simp
  | cons p rest ih =>
    intro m n hn
    rw [List.map_cons] at hn
    have hn1 : p.1 ≠ n := by
      intro he
      exact hn (by rw [← he]; exact List.mem_cons_self _ _)
    have hn2 : n ∉ rest.map Prod.fst := fun hm => hn (List.mem_cons_of_mem _ hm)
    rw [List.foldl_cons, ih _ n hn2]
    exact Store.get_set_ne m p.1 p.2 n hn1

theorem get_foldl_mem (l : List (String × String)) : ∀ (m : Store) (n v : String),
    (l.map Prod.fst).Nodup → (n, v) ∈ l →
    Store.get (l.foldl (fun acc p => Store.set acc p.1 p.2) m) n = some v := by
  induction l with
  | nil => simp
  | cons p rest ih =>
    intro m n v hnd hmem
    rw [List.map_cons, List.nodup_cons] at hnd
    obtain ⟨hp, hndr⟩ := hnd
    rcases List.mem_cons.mp hmem with heq | hmemr
    · have hp1 : p.1 = n := by rw [← heq]
      have hp2 : p.2 = v := by rw [← heq]
      subst hp1
      subst hp2
      simp only [List.foldl_cons]
      rw [get_foldl_not_mem rest _ p.1 hp]
      exact Store.get_set_self m p.1 p.2
    · simpa using ih _ n v hndr hmemr

/-- C8: serialized concurrent in-process writers: the spec's per-path lock
makes every `set` call an atomic load-update-persist, so a concurrent
execution is some interleaving order of the calls; for every family of set
calls to pairwise-distinct names and every execution order of them, once all
succeed the final backing file contains every (name, value) pair — no lost
updates. -/
theorem concurrent_sets_all_persist (fs fs2 : FileSystem) (path : String) (m : Store)
    (calls order : List (String × String))
    (hperm : order.Perm calls) (hnodup : (calls.map Prod.fst).Nodup)
    (hload : load (readFile fs path) = .ok m)
    (hrun : runSets fs path order = .ok fs2) :
    ∀ nv ∈ calls, backendGet fs2 path nv.1 = .ok (some nv.2) := by
  intro nv hmemc
  have hmemo : nv ∈ order := hperm.mem_iff.mpr hmemc
  have hnodupo : (order.map Prod.fst).Nodup := ((hperm.map Prod.fst).nodup_iff).mpr hnodup
  have hfinal := runSets_load path order fs fs2 m hload hrun
  have hget := get_foldl_mem order m nv.1 nv.2 hnodupo (by simpa using hmemo)
  simp [backendGet, hfinal, Except.map, hget]

/-- C8 witness: two concurrent sets of distinct names executed in the
reverse of their listed order; both survive in the final backing file. -/
theorem concurrent_sets_all_persist_witness :
    backendGet [("/p", "\x7b\"a\":\"1\",\"b\":\"2\"\x7d")] "/p" "a" = .ok (some "1") :=
  concurrent_sets_all_persist [] [("/p", "\x7b\"a\":\"1\",\"b\":\"2\"\x7d")] "/p" []
    [("a", "1"), ("b", "2")] [("b", "2"), ("a", "1")]
    (by decide) (by decide) (by rfl) (by rfl) ("a", "1") (by decide)

/-- C10: the handle state is its `config_path`, fixed at construction; the
three methods are `const`: any sequence of get/set/list calls through a
handle leaves the handle exactly as it was created, in particular its
resolved `config_path` is unchanged. -/
theorem handle_state_constant (home dir : String) (fs : FileSystem)
    (ops : List MethodOp) :
    (runVM (VariableManager.make home dir, fs) ops).1 = VariableManager.make home dir ∧
    ((runVM (VariableManager.make home dir, fs) ops).1).config_path
      = (VariableManager.make home dir).config_path :=
  ⟨runVM_fst ops _, by rw [runVM_fst ops _]⟩

end VarApi
